import Mathlib

/-!
Shallow embedding of the monaco-ov editor / language-server bridge
(`LspClientCreator` and the token-provider compilation step), together with
proofs of the specification's claims about it.

The bridge is event-driven glue code: editor events and server notifications
mutate a small amount of client state and emit outbound notifications.  We
embed it as explicit state passing over a `BridgeState` record that carries

  * the three editor surfaces (primary `ov` model, schema editor text,
    output editor model),
  * the shared key-value store (`ContentManager`, modelled from the spec as a
    plain four-field store) together with a log of its writes,
  * a log of outbound notifications sent on the current connection,
  * a combined trace of sends and listener registrations (for the ordering
    claims),
  * the DOM select boxes, the installed token-classifier table, and the
    `ov` language configuration.

JavaScript runtime faults (the unguarded `getModel()!` dereference, reading
`options[selectedIndex]` out of range) are embedded by letting every fallible
operation return the state reached so far paired with an optional error:
mutations performed before a throw persist, exactly as in JavaScript.
-/

/-- Keys of the shared key-value store (`ContentEnum` in the source). -/
inductive ContentEnum
  | Schema
  | Code
  | Culture
  | Language
deriving DecidableEq, Repr

/-- Modelled from the spec: the shared key-value store `ContentManager` lives
outside `src/`; the spec describes it as a small shared key-value store with
keys `Schema`, `Code`, `Culture`, `Language`. -/
structure ContentStore where
  schema : String
  code : String
  culture : String
  language : String
deriving DecidableEq, Repr

/-- A monaco text model: URI, full text and language id. -/
structure TextModel where
  uri : String
  value : String
  languageId : String
deriving DecidableEq, Repr

/-- A DOM `select` element: its option values and the selected index. -/
structure SelectBox where
  options : List String
  selectedIndex : Nat
deriving DecidableEq, Repr

/-- Outbound notifications sent over the connection, with their payloads
(`schema-changed`, `culture-changed`, `language-changed`). -/
inductive SentNotification
  | schemaChanged (schema : String) (uri : String)
  | cultureChanged (culture : String) (uri : String)
  | languageChanged (language : String) (uri : String)
deriving DecidableEq, Repr

/-- The listener registrations performed in the connection-setup callback,
in source order. -/
inductive ListenerKind
  | semanticHighlighting
  | generatedCode
  | didChangeTextDocument
  | aliasesChanges
  | clickHandlers
deriving DecidableEq, Repr

/-- An entry of the connection-setup trace: either an outbound send or a
listener registration. -/
inductive TraceAction
  | send (n : SentNotification)
  | register (l : ListenerKind)
deriving DecidableEq, Repr

/-- A compiled JavaScript regular expression, kept symbolic: the source
pattern and the flags passed to `new RegExp`. -/
structure JSRegExp where
  source : String
  flags : String
deriving DecidableEq, Repr

/-- Modelled from the spec: `TokenClass` is an enum defined in
`monaco-configuration/enums` (not under `src/`); the spec treats it as an
abstract class tag paired with each pattern, so we model it as a tag. -/
structure TokenClass where
  tag : Nat
deriving DecidableEq, Repr

/-- The `comments` part of a monaco language configuration: here only the
line-comment marker, which is all this repository's code ever sets. -/
structure CommentConfig where
  lineComment : String
deriving DecidableEq, Repr

/-- Modelled from the spec: the monaco language-configuration registry entry
for the `ov` language.  The spec states the comment-keyword handler replaces
the line-comment marker and leaves other language configuration untouched;
`otherParts` stands for that untouched remainder. -/
structure OvLanguageConfiguration where
  comments : CommentConfig
  otherParts : List (String × String)
deriving DecidableEq, Repr

/-- JavaScript runtime faults this layer can raise. -/
inductive JsError
  | nullModel
  | undefinedOption
  | missingSelectBox
deriving DecidableEq, Repr

/-- The client-side state the bridge reads and mutates. -/
structure BridgeState where
  ovModel : Option TextModel
  schemaValue : String
  outputModel : Option TextModel
  store : ContentStore
  writes : List (ContentEnum × String)
  sent : List SentNotification
  trace : List TraceAction
  cultureSelectBox : Option SelectBox
  languageSelectBox : Option SelectBox
  ovTokens : List (JSRegExp × TokenClass)
  ovConfiguration : OvLanguageConfiguration
deriving DecidableEq, Repr

/-- Outcome of a fallible operation: the state reached (mutations performed
before a throw persist) and the fault, if one was thrown. -/
abbrev JsOutcome := BridgeState × Option JsError

/-- Read a key from the shared store. -/
def contentGet (store : ContentStore) : ContentEnum → String
  | ContentEnum.Schema => store.schema
  | ContentEnum.Code => store.code
  | ContentEnum.Culture => store.culture
  | ContentEnum.Language => store.language

/-- Write a key in the shared store. -/
def contentSet (store : ContentStore) : ContentEnum → String → ContentStore
  | ContentEnum.Schema, v => { store with schema := v }
  | ContentEnum.Code, v => { store with code := v }
  | ContentEnum.Culture, v => { store with culture := v }
  | ContentEnum.Language, v => { store with language := v }

/-- Model of `ContentManager.setValue`: updates the store and is logged in `writes`. -/
def ContentManager.setValue (k : ContentEnum) (v : String) (st : BridgeState) : BridgeState :=
  { st with store := contentSet st.store k v, writes := st.writes ++ [(k, v)] }

/-- Model of `ContentManager.getValue`: reads the store. -/
def ContentManager.getValue (k : ContentEnum) (st : BridgeState) : String :=
  contentGet st.store k

/-- Model of `currentConnection.sendNotification`: appended to the `sent` log and to
the connection-setup trace. -/
def sendNotification (n : SentNotification) (st : BridgeState) : BridgeState :=
  { st with sent := st.sent ++ [n], trace := st.trace ++ [TraceAction.send n] }

/-- Embedding of `sendSchemaChangedNotification` (source lines 223-230): reads the schema
editor's value, dereferences the primary model with an unguarded `!` and
sends the schema-changed notification. -/
def sendSchemaChangedNotification (st : BridgeState) : JsOutcome :=
  let schemaValue := st.schemaValue
  match st.ovModel with
  | none => (st, some JsError.nullModel)
  | some m =>
      (sendNotification (SentNotification.schemaChanged schemaValue m.uri) st, none)

/-- The `for`/`break` loop of `sendLanguageConfiguration`: mark the first
option equal to the stored value as selected, if any. -/
def selectMatching (box : SelectBox) (value : String) : SelectBox :=
  match box.options.findIdx? (fun v => v == value) with
  | some i => { box with selectedIndex := i }
  | none => box

/-- Embedding of `sendLanguageConfiguration` (source lines 239-284): dereferences the
primary model first, then for each present select box reflects the stored
option value into the box and sends the corresponding notification
(culture first, then language); a missing box is silently skipped. -/
def sendLanguageConfiguration (st : BridgeState) : JsOutcome :=
  match st.ovModel with
  | none => (st, some JsError.nullModel)
  | some m =>
      let st1 :=
        match st.cultureSelectBox with
        | none => st
        | some box =>
            let culture := ContentManager.getValue ContentEnum.Culture st
            let stSel := { st with cultureSelectBox := some (selectMatching box culture) }
            sendNotification (SentNotification.cultureChanged culture m.uri) stSel
      let st2 :=
        match st1.languageSelectBox with
        | none => st1
        | some box =>
            let language := ContentManager.getValue ContentEnum.Language st1
            let stSel := { st1 with languageSelectBox := some (selectMatching box language) }
            sendNotification (SentNotification.languageChanged language m.uri) stSel
      (st2, none)

/-- A workspace document-change event: the changed document's language id
and its new full text (`getText`). -/
structure TextDocumentChangeEvent where
  languageId : String
  text : String
deriving DecidableEq, Repr

/-- The `onDidChangeTextDocument` listener body (source lines 179-192):
dispatch on the changed document's language id. -/
def onDidChangeTextDocument (event : TextDocumentChangeEvent) (st : BridgeState) : JsOutcome :=
  if event.languageId = "yaml" then
    match sendSchemaChangedNotification st with
    | (st1, some e) => (st1, some e)
    | (st1, none) => (ContentManager.setValue ContentEnum.Schema event.text st1, none)
  else if event.languageId = "ov" then
    (ContentManager.setValue ContentEnum.Code event.text st, none)
  else
    (st, none)

/-- JavaScript truthiness of a string: `!!s` is `false` exactly for the
empty string. -/
def jsTruthyString (s : String) : Bool :=
  s != ""

/-- Embedding of `getRegEx` (TokensProvider source): fold over the payload, pushing a
compiled `(RegExp, class)` pair for every truthy pattern. -/
def getRegEx (stringList : List (String × TokenClass)) : List (JSRegExp × TokenClass) :=
  stringList.foldl
    (fun returnList element =>
      if jsTruthyString element.1 then
        returnList ++ [(JSRegExp.mk element.1 "g", element.2)]
      else
        returnList)
    []

/-- The semantic-highlighting notification handler (source lines 128-143)
applied to a decoded payload: install the compiled classifier table as the
new token provider for `ov`, replacing the previous one. -/
def handleSemanticHighlighting (payload : List (String × TokenClass)) (st : BridgeState) : BridgeState :=
  { st with ovTokens := getRegEx payload }

/-- Payload of the generated-code notification (`ICodeNotification`). -/
structure ICodeNotification where
  language : String
  implementation : String
deriving DecidableEq, Repr

/-- ASCII model of JavaScript `String.prototype.toLowerCase`. -/
def jsToLower (s : String) : String :=
  String.mk (s.data.map Char.toLower)

/-- The generated-code notification handler (source lines 153-169) applied
to a decoded payload: if the output editor has a model, replace its text and
set its language id to the lower-cased language; otherwise do nothing. -/
def handleGeneratedCode (p : ICodeNotification) (st : BridgeState) : BridgeState :=
  let language := jsToLower p.language
  let value := p.implementation
  match st.outputModel with
  | none => st
  | some currentModel =>
      { st with outputModel := some { currentModel with value := value, languageId := language } }

/-- The comment-keyword-changed notification handler (source lines 202-214):
set the `ov` language configuration's comments to the given line-comment
marker; the rest of the configuration is not touched by this code. -/
def handleCommentKeywordChanged (params : String) (st : BridgeState) : BridgeState :=
  { st with ovConfiguration :=
      { st.ovConfiguration with comments := CommentConfig.mk params } }

/-- The `onchange` handler installed on the culture select box (source lines
299-312): guard against a null event, read the selected option's value,
dereference the primary model with an unguarded `!`, persist the value, then
send the culture-changed notification. -/
def cultureSelectOnChange (e : Option Unit) (st : BridgeState) : JsOutcome :=
  match e with
  | none => (st, none)
  | some _ =>
      match st.cultureSelectBox with
      | none => (st, some JsError.missingSelectBox)
      | some box =>
          match box.options.get? box.selectedIndex with
          | none => (st, some JsError.undefinedOption)
          | some selectedCulture =>
              match st.ovModel with
              | none => (st, some JsError.nullModel)
              | some m =>
                  let st1 := ContentManager.setValue ContentEnum.Culture selectedCulture st
                  (sendNotification (SentNotification.cultureChanged selectedCulture m.uri) st1, none)

/-- The `onchange` handler installed on the language select box (source
lines 320-333), mirror image of the culture handler. -/
def languageSelectOnChange (e : Option Unit) (st : BridgeState) : JsOutcome :=
  match e with
  | none => (st, none)
  | some _ =>
      match st.languageSelectBox with
      | none => (st, some JsError.missingSelectBox)
      | some box =>
          match box.options.get? box.selectedIndex with
          | none => (st, some JsError.undefinedOption)
          | some selectedLanguage =>
              match st.ovModel with
              | none => (st, some JsError.nullModel)
              | some m =>
                  let st1 := ContentManager.setValue ContentEnum.Language selectedLanguage st
                  (sendNotification (SentNotification.languageChanged selectedLanguage m.uri) st1, none)

/-- Registration of a listener (the `add*Listener` / `setClickHandler`
calls): recorded in the connection-setup trace. -/
def registerListener (l : ListenerKind) (st : BridgeState) : BridgeState :=
  { st with trace := st.trace ++ [TraceAction.register l] }

/-- The body of the `connectionProvider.get` callback (source lines 94-114):
send the schema, send the option state, then register the listeners, all
synchronously in this order. -/
def connectionProviderGet (st : BridgeState) : JsOutcome :=
  match sendSchemaChangedNotification st with
  | (st1, some e) => (st1, some e)
  | (st1, none) =>
      match sendLanguageConfiguration st1 with
      | (st2, some e) => (st2, some e)
      | (st2, none) =>
          let st3 := registerListener ListenerKind.semanticHighlighting st2
          let st4 := registerListener ListenerKind.generatedCode st3
          let st5 := registerListener ListenerKind.didChangeTextDocument st4
          let st6 := registerListener ListenerKind.aliasesChanges st5
          let st7 := registerListener ListenerKind.clickHandlers st6
          (st7, none)

/-- Embedding of `PORT` (source line 17): `process.env.PORT || 3010`; an unset or empty
(falsy) environment value yields the default. -/
def PORT (envPort : Option String) : String :=
  match envPort with
  | none => "3010"
  | some p => if p = "" then "3010" else p

/-- Collapse every run of consecutive slashes to a single slash. -/
def collapseSlashes : List Char → List Char
  | [] => []
  | [c] => [c]
  | c :: d :: rest =>
      if c = '/' ∧ d = '/' then collapseSlashes (d :: rest)
      else c :: collapseSlashes (d :: rest)

/-- Whether a character list contains two consecutive slashes. -/
def hasDupSlash : List Char → Bool
  | [] => false
  | [_] => false
  | c :: d :: rest => (c = '/' && d = '/') || hasDupSlash (d :: rest)

/-- Split a character list at the first occurrence of the three characters
of a URL scheme separator, returning the part before and the part after. -/
def splitSchemeSep : List Char → Option (List Char × List Char)
  | [] => none
  | [_] => none
  | [_, _] => none
  | c :: d :: e :: rest =>
      if c = ':' ∧ d = '/' ∧ e = '/' then some ([], rest)
      else
        match splitSchemeSep (d :: e :: rest) with
        | some (pre, post) => some (c :: pre, post)
        | none => none

/-- Modelled from the spec: the `normalize-url` collaborator (an external
package), of which this layer relies only on duplicate-slash collapsing in
the path (spec section 6: "normalized (duplicate slashes collapsed)").  The
scheme and the authority (everything up to the first slash after the scheme
separator) are kept as they are; runs of slashes in the path are collapsed. -/
def normalizeUrlModel (url : String) : String :=
  match splitSchemeSep url.data with
  | some (scheme, rest) =>
      String.mk (scheme ++ ':' :: '/' :: '/' ::
        (rest.takeWhile (fun c => c != '/') ++
          collapseSlashes (rest.dropWhile (fun c => c != '/'))))
  | none => url

/-- Embedding of `createUrl` (source lines 346-351): choose `wss` for a secure page,
`ws` otherwise, and normalize the concatenated URL. -/
def createUrl (secure : Bool) (envPort : Option String) (pathname : String) (path : String) : String :=
  let protocol := if secure then "wss" else "ws"
  normalizeUrlModel (protocol ++ "://localhost:" ++ PORT envPort ++ pathname ++ path)

/-- A session created by one `onConnection` callback: its identity, whether
its transport is still open, and the inbound listeners registered on it. -/
structure LspSession where
  id : Nat
  isOpen : Bool
  listeners : List ListenerKind
deriving DecidableEq, Repr

/-- State of the reconnect lifecycle: the sessions created so far, a fresh
identity counter, and the log of listener firings. -/
structure LifecycleState where
  sessions : List LspSession
  nextId : Nat
  fired : List (Nat × ListenerKind)
deriving DecidableEq, Repr

/-- The inbound listeners registered by the connection-setup callback. -/
def inboundListeners : List ListenerKind :=
  [ListenerKind.semanticHighlighting, ListenerKind.generatedCode,
   ListenerKind.didChangeTextDocument, ListenerKind.aliasesChanges]

/-- Lifecycle events: a socket (re)connection (the `onConnection` callback
creates and starts a fresh session and registers the inbound listeners on
it), the close callback of a session (which disposes the started client),
and the delivery of a server notification on a given session's connection. -/
inductive LifecycleEvent
  | connect
  | close (sid : Nat)
  | deliver (sid : Nat) (l : ListenerKind)
deriving DecidableEq, Repr

/-- Modelled from the spec: one step of the reconnect lifecycle.  Each
`onConnection` callback creates a fresh independent session whose listeners
are registered on that session's own connection (source lines 49-59 and
94-114); the close callback disposes the session; a delivery fires a
listener only if it was registered on the delivering session and that
session has not been disposed (spec section 3: the session is destroyed
when the socket's close event fires). -/
def lifecycleStep (st : LifecycleState) : LifecycleEvent → LifecycleState
  | LifecycleEvent.connect =>
      { st with
        sessions := st.sessions ++ [LspSession.mk st.nextId true inboundListeners],
        nextId := st.nextId + 1 }
  | LifecycleEvent.close sid =>
      { st with
        sessions := st.sessions.map (fun s => if s.id = sid then { s with isOpen := false } else s) }
  | LifecycleEvent.deliver sid l =>
      match st.sessions.find? (fun s => s.id == sid) with
      | none => st
      | some s =>
          if s.isOpen && s.listeners.contains l then
            { st with fired := st.fired ++ [(sid, l)] }
          else st

/-- Run the lifecycle from a given state. -/
def lifecycleRunFrom (st : LifecycleState) (evs : List LifecycleEvent) : LifecycleState :=
  evs.foldl lifecycleStep st

/-- Run the lifecycle from the initial state of the page. -/
def lifecycleRun (evs : List LifecycleEvent) : LifecycleState :=
  lifecycleRunFrom (LifecycleState.mk [] 0 []) evs

/-- A sample primary (`ov`) model used by concrete witnesses. -/
def sampleModel : TextModel :=
  TextModel.mk "inmemory://model/ov" "rule text" "ov"

/-- A sample output model used by concrete witnesses. -/
def sampleOutputModel : TextModel :=
  TextModel.mk "inmemory://model/out" "" "java"

/-- A sample shared store used by concrete witnesses. -/
def sampleStore : ContentStore :=
  ContentStore.mk "schema0" "code0" "de" "java"

/-- A sample `ov` language configuration used by concrete witnesses. -/
def sampleConfig : OvLanguageConfiguration :=
  OvLanguageConfiguration.mk (CommentConfig.mk "#") [("brackets", "()")]

/-- A sample bridge state with all surfaces and both select boxes present. -/
def sampleState : BridgeState :=
  BridgeState.mk (some sampleModel) "type: yaml" (some sampleOutputModel)
    sampleStore [] [] [] (some (SelectBox.mk ["de", "en"] 0))
    (some (SelectBox.mk ["java", "cs"] 1)) [] sampleConfig

/-- The sample state with the primary editor's model absent. -/
def sampleStateNoModel : BridgeState :=
  { sampleState with ovModel := none }

/-- Invariant of the reconnect lifecycle: every session id is below the
fresh counter, and session ids are pairwise distinct (sessions are
independent). -/
def lifecycleInv (st : LifecycleState) : Prop :=
  (∀ sess ∈ st.sessions, sess.id < st.nextId) ∧ (st.sessions.map LspSession.id).Nodup

/-- Session `s` has been allocated and its close callback has run: every
session record carrying id `s` is disposed. -/
def sessionClosed (s : Nat) (st : LifecycleState) : Prop :=
  s < st.nextId ∧ ∀ sess ∈ st.sessions, sess.id = s → sess.isOpen = false

/-- The push-loop of `getRegEx` computes a filter of the truthy patterns
followed by compilation, in payload order. -/
theorem getRegEx_eq_filter_map (l : List (String × TokenClass)) :
    getRegEx l
      = (l.filter (fun e => jsTruthyString e.1)).map (fun e => (JSRegExp.mk e.1 "g", e.2)) := by
  have h : ∀ (l : List (String × TokenClass)) (acc : List (JSRegExp × TokenClass)),
      l.foldl
          (fun returnList element =>
            if jsTruthyString element.1 then
              returnList ++ [(JSRegExp.mk element.1 "g", element.2)]
            else returnList)
          acc
        = acc ++ (l.filter (fun e => jsTruthyString e.1)).map
            (fun e => (JSRegExp.mk e.1 "g", e.2)) := by
    intro l
    induction l with
    | nil => intro acc; simp
    | cons e rest ih =>
        intro acc
        cases he : jsTruthyString e.1 with
        | true => simp [he, ih, List.filter_cons]
        | false => simp [he, ih, List.filter_cons]
  simpa [getRegEx] using h l []

/-- C2: for every decoded semantic-highlighting payload, the installed
classifier table contains exactly one compiled entry per truthy (non-empty)
pattern, in payload order, and none for falsy (empty) patterns; in
particular a payload with one empty-pattern entry and one non-empty-pattern
entry yields a table with exactly the one compiled non-empty entry. -/
theorem C2_semantic_highlighting_table (payload : List (String × TokenClass)) (st : BridgeState) :
    (handleSemanticHighlighting payload st).ovTokens
        = (payload.filter (fun e => jsTruthyString e.1)).map
            (fun e => (JSRegExp.mk e.1 "g", e.2))
      ∧ (∀ c1 c2 : TokenClass,
          (handleSemanticHighlighting [("", c1), ("IF|THEN", c2)] st).ovTokens
            = [(JSRegExp.mk "IF|THEN" "g", c2)]) := by
  constructor
  · simp [handleSemanticHighlighting, getRegEx_eq_filter_map]
  · intro c1 c2
    simp [handleSemanticHighlighting, getRegEx_eq_filter_map, List.filter_cons, jsTruthyString]

/-- C3: a generated-code notification replaces the output model's full text
with the implementation string and sets its language id to the lower-cased
language; with no active output model nothing changes.  The concrete
instance of the spec is included: language Java with implementation
class X\x7b\x7d yields text class X\x7b\x7d and language id java. -/
theorem C3_generated_code_updates_output (p : ICodeNotification) (st : BridgeState) :
    (st.outputModel = none → handleGeneratedCode p st = st)
    ∧ (∀ m, st.outputModel = some m →
        handleGeneratedCode p st
          = { st with
                outputModel := some { m with value := p.implementation,
                                             languageId := jsToLower p.language } })
    ∧ (∀ m, st.outputModel = some m →
        (handleGeneratedCode (ICodeNotification.mk "Java" "class X\x7b\x7d") st).outputModel
          = some (TextModel.mk m.uri "class X\x7b\x7d" "java")) := by
  refine ⟨?_, ?_, ?_⟩
  · intro h; simp [handleGeneratedCode, h]
  · intro m h; simp [handleGeneratedCode, h]
  · intro m h
    simp [handleGeneratedCode, h, jsToLower]

theorem C3_generated_code_updates_output_witness :
    (handleGeneratedCode (ICodeNotification.mk "Java" "class X\x7b\x7d") sampleState).outputModel
      = some (TextModel.mk "inmemory://model/out" "class X\x7b\x7d" "java") :=
  (C3_generated_code_updates_output (ICodeNotification.mk "Java" "class X\x7b\x7d")
    sampleState).2.2 sampleOutputModel rfl

/-- C8: the comment-keyword-changed handler replaces the `ov` language
configuration's line-comment marker with exactly the received string and
changes nothing else: the rest of the language configuration and every other
part of the bridge state are untouched. -/
theorem C8_comment_keyword_replaces_line_comment (params : String) (st : BridgeState) :
    handleCommentKeywordChanged params st
        = { st with ovConfiguration :=
              OvLanguageConfiguration.mk (CommentConfig.mk params) st.ovConfiguration.otherParts }
      ∧ (handleCommentKeywordChanged params st).ovConfiguration.comments.lineComment = params
      ∧ (handleCommentKeywordChanged params st).ovConfiguration.otherParts
          = st.ovConfiguration.otherParts := by
  refine ⟨?_, rfl, rfl⟩
  simp [handleCommentKeywordChanged]

/-- C5: every invocation of the schema-state send emits exactly one
schema-changed notification whose payload is the schema editor's current
text and the primary document's URI, independent of any prior send history
(the `sent` log is arbitrary and only appended to); no other state changes. -/
theorem C5_schema_send_payload (st : BridgeState) (m : TextModel) (h : st.ovModel = some m) :
    sendSchemaChangedNotification st
      = ({ st with
            sent := st.sent ++ [SentNotification.schemaChanged st.schemaValue m.uri],
            trace := st.trace ++
              [TraceAction.send (SentNotification.schemaChanged st.schemaValue m.uri)] },
          none) := by
  simp [sendSchemaChangedNotification, h, sendNotification]

theorem C5_schema_send_payload_witness :
    sendSchemaChangedNotification sampleState
      = ({ sampleState with
            sent := sampleState.sent ++
              [SentNotification.schemaChanged "type: yaml" "inmemory://model/ov"],
            trace := sampleState.trace ++
              [TraceAction.send
                (SentNotification.schemaChanged "type: yaml" "inmemory://model/ov")] },
          none) :=
  C5_schema_send_payload sampleState sampleModel rfl

/-- C1: the workspace document-change listener dispatches on the changed
document's language id: for yaml exactly one schema-changed notification is
sent and exactly one shared-state write keyed Schema with the document's new
text occurs; for ov no notification is sent and exactly one write keyed Code
occurs; for any other language id nothing happens. -/
theorem C1_document_change_dispatch (event : TextDocumentChangeEvent) (st : BridgeState)
    (m : TextModel) (h : st.ovModel = some m) :
    (event.languageId = "yaml" →
      ∃ st', onDidChangeTextDocument event st = (st', none)
        ∧ st'.sent = st.sent ++ [SentNotification.schemaChanged st.schemaValue m.uri]
        ∧ st'.writes = st.writes ++ [(ContentEnum.Schema, event.text)])
    ∧ (event.languageId = "ov" →
      ∃ st', onDidChangeTextDocument event st = (st', none)
        ∧ st'.sent = st.sent
        ∧ st'.writes = st.writes ++ [(ContentEnum.Code, event.text)])
    ∧ (event.languageId ≠ "yaml" → event.languageId ≠ "ov" →
      onDidChangeTextDocument event st = (st, none)) := by
  refine ⟨?_, ?_, ?_⟩
  · intro hy
    refine ⟨(onDidChangeTextDocument event st).1, ?_, ?_, ?_⟩ <;>
      simp [onDidChangeTextDocument, hy, sendSchemaChangedNotification, h,
        ContentManager.setValue, sendNotification]
  · intro hy
    have hne : event.languageId ≠ "yaml" := by simp [hy]
    refine ⟨(onDidChangeTextDocument event st).1, ?_, ?_, ?_⟩ <;>
      simp [onDidChangeTextDocument, hy, hne, ContentManager.setValue]
  · intro h1 h2
    simp [onDidChangeTextDocument, h1, h2]

theorem C1_document_change_dispatch_witness :
    (∃ st', onDidChangeTextDocument (TextDocumentChangeEvent.mk "yaml" "type: new") sampleState
        = (st', none)
      ∧ st'.sent = sampleState.sent ++
          [SentNotification.schemaChanged "type: yaml" "inmemory://model/ov"]
      ∧ st'.writes = sampleState.writes ++ [(ContentEnum.Schema, "type: new")])
    ∧ (∃ st', onDidChangeTextDocument (TextDocumentChangeEvent.mk "ov" "new rule") sampleState
        = (st', none)
      ∧ st'.sent = sampleState.sent
      ∧ st'.writes = sampleState.writes ++ [(ContentEnum.Code, "new rule")])
    ∧ onDidChangeTextDocument (TextDocumentChangeEvent.mk "java" "x") sampleState
        = (sampleState, none) := by
  refine ⟨?_, ?_, ?_⟩
  · exact (C1_document_change_dispatch (TextDocumentChangeEvent.mk "yaml" "type: new")
      sampleState sampleModel rfl).1 rfl
  · exact (C1_document_change_dispatch (TextDocumentChangeEvent.mk "ov" "new rule")
      sampleState sampleModel rfl).2.1 rfl
  · exact (C1_document_change_dispatch (TextDocumentChangeEvent.mk "java" "x")
      sampleState sampleModel rfl).2.2 (by decide) (by decide)

/-- C6: a change event on the culture select control sends exactly one
culture-changed notification carrying the currently selected option value
and performs exactly one shared-state write of that same value under the
culture key, for any prior send history; symmetrically for the language
select control. -/
theorem C6_select_change_handlers (st : BridgeState) (cbox lbox : SelectBox)
    (cv lv : String) (m : TextModel)
    (hc : st.cultureSelectBox = some cbox)
    (hcv : cbox.options.get? cbox.selectedIndex = some cv)
    (hl : st.languageSelectBox = some lbox)
    (hlv : lbox.options.get? lbox.selectedIndex = some lv)
    (hm : st.ovModel = some m) :
    (∃ st', cultureSelectOnChange (some ()) st = (st', none)
      ∧ st'.sent = st.sent ++ [SentNotification.cultureChanged cv m.uri]
      ∧ st'.writes = st.writes ++ [(ContentEnum.Culture, cv)]
      ∧ st'.store.culture = cv)
    ∧ (∃ st', languageSelectOnChange (some ()) st = (st', none)
      ∧ st'.sent = st.sent ++ [SentNotification.languageChanged lv m.uri]
      ∧ st'.writes = st.writes ++ [(ContentEnum.Language, lv)]
      ∧ st'.store.language = lv) := by
  have hcv' : cbox.options[cbox.selectedIndex]? = some cv := by simpa using hcv
  have hlv' : lbox.options[lbox.selectedIndex]? = some lv := by simpa using hlv
  constructor
  · refine ⟨(cultureSelectOnChange (some ()) st).1, ?_, ?_, ?_, ?_⟩ <;>
      simp [cultureSelectOnChange, hc, hcv', hm, ContentManager.setValue,
        sendNotification, contentSet]
  · refine ⟨(languageSelectOnChange (some ()) st).1, ?_, ?_, ?_, ?_⟩ <;>
      simp [languageSelectOnChange, hl, hlv', hm, ContentManager.setValue,
        sendNotification, contentSet]

theorem C6_select_change_handlers_witness :
    (∃ st', cultureSelectOnChange (some ()) sampleState = (st', none)
      ∧ st'.sent = sampleState.sent ++
          [SentNotification.cultureChanged "de" "inmemory://model/ov"]
      ∧ st'.writes = sampleState.writes ++ [(ContentEnum.Culture, "de")]
      ∧ st'.store.culture = "de")
    ∧ (∃ st', languageSelectOnChange (some ()) sampleState = (st', none)
      ∧ st'.sent = sampleState.sent ++
          [SentNotification.languageChanged "cs" "inmemory://model/ov"]
      ∧ st'.writes = sampleState.writes ++ [(ContentEnum.Language, "cs")]
      ∧ st'.store.language = "cs") :=
  C6_select_change_handlers sampleState (SelectBox.mk ["de", "en"] 0)
    (SelectBox.mk ["java", "cs"] 1) "de" "cs" sampleModel rfl rfl rfl rfl rfl

/-- C7: in the connection-setup callback the session-start schema-changed
send comes first, then the option-state sends (culture, then language, each
present only when its select box exists), and only after all of these do the
inbound listener registrations occur — all synchronously in the same
callback, so no inbound notification can be handled before the sends. -/
theorem C7_session_start_ordering (st : BridgeState) (m : TextModel)
    (h : st.ovModel = some m) (h0 : st.trace = []) :
    ∃ st', connectionProviderGet st = (st', none)
      ∧ st'.trace =
          (SentNotification.schemaChanged st.schemaValue m.uri ::
            ((match st.cultureSelectBox with
              | some _ => [SentNotification.cultureChanged st.store.culture m.uri]
              | none => []) ++
             (match st.languageSelectBox with
              | some _ => [SentNotification.languageChanged st.store.language m.uri]
              | none => []))).map TraceAction.send
          ++ [TraceAction.register ListenerKind.semanticHighlighting,
              TraceAction.register ListenerKind.generatedCode,
              TraceAction.register ListenerKind.didChangeTextDocument,
              TraceAction.register ListenerKind.aliasesChanges,
              TraceAction.register ListenerKind.clickHandlers] := by
  refine ⟨(connectionProviderGet st).1, ?_, ?_⟩ <;>
    cases hcb : st.cultureSelectBox <;> cases hlb : st.languageSelectBox <;>
      simp [connectionProviderGet, sendSchemaChangedNotification, h, sendLanguageConfiguration,
        sendNotification, registerListener, hcb, hlb, h0, ContentManager.getValue,
        contentGet]

theorem C7_session_start_ordering_witness :
    ∃ st', connectionProviderGet sampleState = (st', none)
      ∧ st'.trace =
          [TraceAction.send (SentNotification.schemaChanged "type: yaml" "inmemory://model/ov"),
           TraceAction.send (SentNotification.cultureChanged "de" "inmemory://model/ov"),
           TraceAction.send (SentNotification.languageChanged "java" "inmemory://model/ov"),
           TraceAction.register ListenerKind.semanticHighlighting,
           TraceAction.register ListenerKind.generatedCode,
           TraceAction.register ListenerKind.didChangeTextDocument,
           TraceAction.register ListenerKind.aliasesChanges,
           TraceAction.register ListenerKind.clickHandlers] := by
  have h := C7_session_start_ordering sampleState sampleModel rfl rfl
  simpa using h

/-- C10 (amended): every outbound send dereferences the primary editor's
model through an unguarded non-null assertion; with the model absent each of
them faults with an unhandled error, sending nothing and — in the option
change handlers — performing no shared-state write at all, because the
dereference is evaluated before the write; by contrast the absence of a
select box is defensively guarded and is a silent no-op. -/
theorem C10_unguarded_model_dereference :
    (∀ st : BridgeState, st.ovModel = none →
        sendSchemaChangedNotification st = (st, some JsError.nullModel)
        ∧ sendLanguageConfiguration st = (st, some JsError.nullModel)
        ∧ (∀ box v, st.cultureSelectBox = some box →
            box.options.get? box.selectedIndex = some v →
            cultureSelectOnChange (some ()) st = (st, some JsError.nullModel))
        ∧ (∀ box v, st.languageSelectBox = some box →
            box.options.get? box.selectedIndex = some v →
            languageSelectOnChange (some ()) st = (st, some JsError.nullModel)))
    ∧ (∀ (st : BridgeState) (m : TextModel), st.ovModel = some m →
        st.cultureSelectBox = none → st.languageSelectBox = none →
        sendLanguageConfiguration st = (st, none)) := by
  constructor
  · intro st h
    refine ⟨?_, ?_, ?_, ?_⟩
    · simp [sendSchemaChangedNotification, h]
    · simp [sendLanguageConfiguration, h]
    · intro box v hb hv
      have hv' : box.options[box.selectedIndex]? = some v := by simpa using hv
      simp [cultureSelectOnChange, hb, hv', h]
    · intro box v hb hv
      have hv' : box.options[box.selectedIndex]? = some v := by simpa using hv
      simp [languageSelectOnChange, hb, hv', h]
  · intro st m h hc hl
    simp [sendLanguageConfiguration, h, hc, hl]

theorem C10_unguarded_model_dereference_witness :
    sendSchemaChangedNotification sampleStateNoModel
        = (sampleStateNoModel, some JsError.nullModel)
      ∧ cultureSelectOnChange (some ()) sampleStateNoModel
        = (sampleStateNoModel, some JsError.nullModel) :=
  ⟨((C10_unguarded_model_dereference.1 sampleStateNoModel rfl)).1,
   ((C10_unguarded_model_dereference.1 sampleStateNoModel rfl)).2.2.1
      (SelectBox.mk ["de", "en"] 0) "de" rfl rfl⟩

/-- C10, counterexample to the claim as stated: the claim's parenthetical
says the option handlers fault "past the write already done", i.e. with the
shared-state write of the selected value already performed.  In the code the
unguarded dereference (line 303) precedes the write (line 305), so when the
culture handler faults the write log is untouched: it does not end with the
predicted culture write. -/
theorem C10_counterexample_no_write_before_fault :
    (cultureSelectOnChange (some ()) sampleStateNoModel).2 = some JsError.nullModel
      ∧ ¬ ((cultureSelectOnChange (some ()) sampleStateNoModel).1.writes
            = sampleStateNoModel.writes ++ [(ContentEnum.Culture, "de")]) := by
  constructor
  · simp [cultureSelectOnChange, sampleStateNoModel, sampleState]
  · simp [cultureSelectOnChange, sampleStateNoModel, sampleState]

/-- A non-slash head does not create a duplicate slash. -/
theorem hasDupSlash_cons_of_ne (x : Char) (l : List Char) (hx : x ≠ '/') :
    hasDupSlash (x :: l) = hasDupSlash l := by
  cases l with
  | nil => simp [hasDupSlash]
  | cons d rest => simp [hasDupSlash, hx]

/-- A slash-free list has no duplicate slashes. -/
theorem hasDupSlash_of_no_slash (l : List Char) (h : ∀ c ∈ l, c ≠ '/') :
    hasDupSlash l = false := by
  induction l with
  | nil => simp [hasDupSlash]
  | cons x rest ih =>
      rw [hasDupSlash_cons_of_ne x rest (h x (by simp))]
      exact ih (fun c hc => h c (by simp [hc]))

/-- Prepending a slash-free list preserves freedom from duplicate slashes. -/
theorem hasDupSlash_append (a b : List Char) (ha : ∀ c ∈ a, c ≠ '/')
    (hb : hasDupSlash b = false) : hasDupSlash (a ++ b) = false := by
  induction a with
  | nil => simpa
  | cons x rest ih =>
      rw [List.cons_append, hasDupSlash_cons_of_ne x _ (ha x (by simp))]
      exact ih (fun c hc => ha c (by simp [hc]))

/-- Collapsing keeps the head character. -/
theorem collapseSlashes_cons_head (d : Char) (rest : List Char) :
    ∃ t, collapseSlashes (d :: rest) = d :: t := by
  induction rest generalizing d with
  | nil => exact ⟨[], rfl⟩
  | cons e r ih =>
      by_cases hde : d = '/' ∧ e = '/'
      · obtain ⟨t, ht⟩ := ih e
        refine ⟨t, ?_⟩
        have hco : collapseSlashes (d :: e :: r) = collapseSlashes (e :: r) := by
          simp [collapseSlashes, hde]
        rw [hco, ht, hde.1.trans hde.2.symm]
      · exact ⟨collapseSlashes (e :: r), by simp [collapseSlashes, hde]⟩

/-- The collapsed list has no duplicate slashes. -/
theorem hasDupSlash_collapseSlashes (l : List Char) :
    hasDupSlash (collapseSlashes l) = false := by
  induction l with
  | nil => simp [collapseSlashes, hasDupSlash]
  | cons c tl ih =>
      cases tl with
      | nil => simp [collapseSlashes, hasDupSlash]
      | cons d rest =>
          by_cases h : c = '/' ∧ d = '/'
          · simpa [collapseSlashes, h] using ih
          · obtain ⟨t, ht⟩ := collapseSlashes_cons_head d rest
            have h2 : hasDupSlash (d :: t) = false := ht ▸ ih
            have hco : collapseSlashes (c :: d :: rest) = c :: collapseSlashes (d :: rest) := by
              simp [collapseSlashes, h]
            rw [hco, ht]
            by_cases hc : c = '/'
            · have hd : d ≠ '/' := fun hd => h ⟨hc, hd⟩
              simp [hasDupSlash, hc, hd, h2]
            · simp [hasDupSlash, hc, h2]

/-- Collapsing is the identity on lists without duplicate slashes. -/
theorem collapseSlashes_of_no_dup (l : List Char) (h : hasDupSlash l = false) :
    collapseSlashes l = l := by
  induction l with
  | nil => simp [collapseSlashes]
  | cons c tl ih =>
      cases tl with
      | nil => simp [collapseSlashes]
      | cons d rest =>
          by_cases hcd : c = '/' ∧ d = '/'
          · exfalso
            rw [hasDupSlash] at h
            simp [hcd.1, hcd.2] at h
          · have h2 : hasDupSlash (d :: rest) = false := by
              rw [hasDupSlash] at h
              exact (Bool.or_eq_false_iff.mp h).2
            simp [collapseSlashes, hcd, ih h2]

/-- Collapsing a slash followed by a slash-free list is the identity. -/
theorem collapseSlashes_slash_noslash (s : List Char) (hs : ∀ c ∈ s, c ≠ '/') :
    collapseSlashes ('/' :: s) = '/' :: s := by
  apply collapseSlashes_of_no_dup
  cases s with
  | nil => simp [hasDupSlash]
  | cons e r =>
      have he : e ≠ '/' := hs e (by simp)
      have h2 : hasDupSlash (e :: r) = false := hasDupSlash_of_no_slash _ hs
      simp [hasDupSlash, he, h2]

/-- Collapsing preserves a trailing slash-free segment introduced by a
slash. -/
theorem collapseSlashes_append_slash_suffix (l s : List Char) (hs : ∀ c ∈ s, c ≠ '/') :
    ∃ p, collapseSlashes (l ++ '/' :: s) = p ++ '/' :: s := by
  induction l with
  | nil => exact ⟨[], by simpa using collapseSlashes_slash_noslash s hs⟩
  | cons c l' ih =>
      cases l' with
      | nil =>
          by_cases hc : c = '/'
          · subst hc
            exact ⟨[], by simp [collapseSlashes, collapseSlashes_slash_noslash s hs]⟩
          · exact ⟨[c], by simp [collapseSlashes, hc, collapseSlashes_slash_noslash s hs]⟩
      | cons d l'' =>
          obtain ⟨p, hp⟩ := ih
          rw [List.cons_append] at hp
          by_cases hcd : c = '/' ∧ d = '/'
          · exact ⟨p, by simpa [collapseSlashes, hcd] using hp⟩
          · exact ⟨c :: p, by simp [collapseSlashes, hcd, hp]⟩

/-- Scanning past a non-colon character just prepends it. -/
theorem splitSchemeSep_cons_ne (c : Char) (l : List Char) (hc : c ≠ ':') :
    splitSchemeSep (c :: l)
      = match splitSchemeSep l with
        | some (pre, post) => some (c :: pre, post)
        | none => none := by
  cases l with
  | nil => simp [splitSchemeSep]
  | cons d r =>
      cases r with
      | nil => simp [splitSchemeSep]
      | cons e r' => simp [splitSchemeSep, hc]

/-- The scheme separator is found right after a colon-free scheme. -/
theorem splitSchemeSep_scheme (xs rest : List Char) (hx : ∀ c ∈ xs, c ≠ ':') :
    splitSchemeSep (xs ++ ':' :: '/' :: '/' :: rest) = some (xs, rest) := by
  induction xs with
  | nil => simp [splitSchemeSep]
  | cons c xs' ih =>
      rw [List.cons_append, splitSchemeSep_cons_ne c _ (hx c (by simp)),
        ih (fun a ha => hx a (by simp [ha]))]

/-- List lemma: `takeWhile` runs through a segment where the predicate holds. -/
theorem takeWhile_append_of_all (p : Char → Bool) (xs ys : List Char)
    (h : ∀ c ∈ xs, p c = true) :
    (xs ++ ys).takeWhile p = xs ++ ys.takeWhile p := by
  induction xs with
  | nil => simp
  | cons c r ih =>
      simp [List.takeWhile_cons, h c (by simp), ih (fun a ha => h a (by simp [ha]))]

/-- List lemma: `dropWhile` runs through a segment where the predicate holds. -/
theorem dropWhile_append_of_all (p : Char → Bool) (xs ys : List Char)
    (h : ∀ c ∈ xs, p c = true) :
    (xs ++ ys).dropWhile p = ys.dropWhile p := by
  induction xs with
  | nil => simp
  | cons c r ih =>
      simp [List.dropWhile_cons, h c (by simp), ih (fun a ha => h a (by simp [ha]))]

/-- Dropping up to the first slash of a list ending in a slash-introduced
segment yields a list still carrying that segment. -/
theorem dropWhile_to_slash (l s : List Char) :
    ∃ q, (l ++ '/' :: s).dropWhile (fun c => c != '/') = q ++ '/' :: s := by
  induction l with
  | nil => exact ⟨[], by simp [List.dropWhile_cons]⟩
  | cons c l' ih =>
      by_cases hc : c = '/'
      · subst hc
        exact ⟨'/' :: l', by simp [List.dropWhile_cons]⟩
      · obtain ⟨q, hq⟩ := ih
        exact ⟨q, by simp [List.dropWhile_cons, hc, hq]⟩

/-- Action of the normalization model on a URL with a colon-free scheme:
scheme and authority are kept, the path is collapsed. -/
theorem normalizeUrlModel_spec (scheme rest : List Char) (hsch : ∀ c ∈ scheme, c ≠ ':') :
    normalizeUrlModel (String.mk (scheme ++ ':' :: '/' :: '/' :: rest))
      = String.mk (scheme ++ ':' :: '/' :: '/' ::
          (rest.takeWhile (fun c => c != '/')
            ++ collapseSlashes (rest.dropWhile (fun c => c != '/')))) := by
  simp [normalizeUrlModel, splitSchemeSep_scheme _ _ hsch]

/-- Shape of a normalized service URL: scheme and authority are kept
verbatim, and the path ends with the service suffix and has no duplicate
slashes. -/
theorem createUrl_shape_aux (proto port pathname : String)
    (hproto : ∀ c ∈ proto.data, c ≠ ':')
    (hport : ∀ c ∈ port.data, c ≠ '/') :
    ∃ pathPart : List Char,
      normalizeUrlModel (proto ++ "://localhost:" ++ port ++ pathname ++ "/ovLanguage")
        = String.mk ((proto ++ "://localhost:" ++ port).data ++ pathPart)
      ∧ (∃ q, pathPart = q ++ '/' :: "ovLanguage".data)
      ∧ hasDupSlash pathPart = false := by
  have hsep : "://localhost:".data = ':' :: '/' :: '/' :: "localhost:".data := rfl
  have hsuf : "/ovLanguage".data = '/' :: "ovLanguage".data := rfl
  have hu : (proto ++ "://localhost:" ++ port ++ pathname ++ "/ovLanguage")
      = String.mk (proto.data ++ ':' :: '/' :: '/' ::
          (("localhost:".data ++ port.data) ++ (pathname.data ++ '/' :: "ovLanguage".data))) := by
    apply String.ext
    simp [String.data_append, hsep, hsuf]
  have hloc : ∀ c ∈ "localhost:".data, c ≠ '/' := by decide
  have hall : ∀ c ∈ ("localhost:".data ++ port.data), (fun c => c != '/') c = true := by
    intro c hc
    rcases List.mem_append.mp hc with h1 | h2
    · simp [hloc c h1]
    · simp [hport c h2]
  rw [hu, normalizeUrlModel_spec _ _ hproto,
    takeWhile_append_of_all _ _ _ hall, dropWhile_append_of_all _ _ _ hall]
  refine ⟨(pathname.data ++ '/' :: "ovLanguage".data).takeWhile (fun c => c != '/')
      ++ collapseSlashes ((pathname.data ++ '/' :: "ovLanguage".data).dropWhile
          (fun c => c != '/')), ?_, ?_, ?_⟩
  · apply congrArg String.mk
    simp [String.data_append, hsep]
  · obtain ⟨q0, hq0⟩ := dropWhile_to_slash pathname.data "ovLanguage".data
    obtain ⟨p1, hp1⟩ := collapseSlashes_append_slash_suffix q0 "ovLanguage".data (by decide)
    exact ⟨(pathname.data ++ '/' :: "ovLanguage".data).takeWhile (fun c => c != '/') ++ p1,
      by rw [hq0, hp1, List.append_assoc]⟩
  · apply hasDupSlash_append
    · intro c hc
      have := List.mem_takeWhile_imp hc
      simpa using this
    · exact hasDupSlash_collapseSlashes _

/-- C4: the transport URL uses scheme wss exactly for a secure page and ws
otherwise, is addressed to localhost on the configured port (3010 by
default, the PORT environment value when that is set and non-empty), and its
path ends with the fixed service suffix appended to the page path and
contains no duplicate slashes after normalization. -/
theorem C4_createUrl_shape (secure : Bool) (envPort : Option String) (pathname : String)
    (hport : ∀ c ∈ (PORT envPort).data, c ≠ '/') :
    (∃ pathPart : List Char,
        createUrl secure envPort pathname "/ovLanguage"
          = String.mk (((if secure then "wss" else "ws")
              ++ "://localhost:" ++ PORT envPort).data ++ pathPart)
        ∧ (∃ q, pathPart = q ++ '/' :: "ovLanguage".data)
        ∧ hasDupSlash pathPart = false)
    ∧ PORT none = "3010" ∧ PORT (some "") = "3010"
    ∧ (∀ p : String, p ≠ "" → PORT (some p) = p) := by
  refine ⟨?_, rfl, rfl, ?_⟩
  · cases secure with
    | true =>
        simpa [createUrl] using
          createUrl_shape_aux "wss" (PORT envPort) pathname (by decide) hport
    | false =>
        simpa [createUrl] using
          createUrl_shape_aux "ws" (PORT envPort) pathname (by decide) hport
  · intro p hp
    simp [PORT, hp]

theorem C4_createUrl_shape_witness :
    (∃ pathPart : List Char,
        createUrl false none "/" "/ovLanguage"
          = String.mk ((("ws" : String) ++ "://localhost:" ++ PORT none).data ++ pathPart)
        ∧ (∃ q, pathPart = q ++ '/' :: "ovLanguage".data)
        ∧ hasDupSlash pathPart = false)
    ∧ PORT none = "3010" ∧ PORT (some "") = "3010"
    ∧ (∀ p : String, p ≠ "" → PORT (some p) = p) := by
  have h := C4_createUrl_shape false none "/" (by decide)
  simpa using h

/-- A deliver event never changes the session list or the id counter. -/
theorem lifecycleStep_deliver_frame (st : LifecycleState) (sid : Nat) (l : ListenerKind) :
    (lifecycleStep st (LifecycleEvent.deliver sid l)).sessions = st.sessions
    ∧ (lifecycleStep st (LifecycleEvent.deliver sid l)).nextId = st.nextId := by
  cases hf : st.sessions.find? (fun sess => sess.id == sid) with
  | none => simp [lifecycleStep, hf]
  | some sess =>
      simp only [lifecycleStep, hf]
      constructor <;> split <;> rfl

/-- The session invariant only depends on the sessions and the counter. -/
theorem lifecycleInv_of_eq (st st' : LifecycleState) (hsess : st'.sessions = st.sessions)
    (hnext : st'.nextId = st.nextId) (h : lifecycleInv st) : lifecycleInv st' := by
  constructor
  · rw [hsess, hnext]
    exact h.1
  · rw [hsess]
    exact h.2

/-- Closedness of a session only depends on the sessions and the counter. -/
theorem sessionClosed_of_eq (s : Nat) (st st' : LifecycleState)
    (hsess : st'.sessions = st.sessions) (hnext : st'.nextId = st.nextId)
    (h : sessionClosed s st) : sessionClosed s st' := by
  constructor
  · rw [hnext]
    exact h.1
  · rw [hsess]
    exact h.2

/-- One lifecycle step preserves the session invariant. -/
theorem lifecycleStep_inv (st : LifecycleState) (e : LifecycleEvent)
    (h : lifecycleInv st) : lifecycleInv (lifecycleStep st e) := by
  obtain ⟨h1, h2⟩ := h
  cases e with
  | connect =>
      constructor
      · intro sess hs
        simp only [lifecycleStep] at hs ⊢
        rcases List.mem_append.mp hs with hs | hs
        · exact Nat.lt_succ_of_lt (h1 sess hs)
        · simp at hs
          subst hs
          exact Nat.lt_succ_self _
      · simp only [lifecycleStep, List.map_append]
        rw [List.nodup_append]
        refine ⟨h2, by simp, ?_⟩
        intro a ha
        simp only [List.map_cons, List.map_nil, List.mem_singleton]
        rcases List.mem_map.mp ha with ⟨s0, hs0, rfl⟩
        intro hcon
        exact absurd hcon (Nat.ne_of_lt (h1 s0 hs0))
  | close sid =>
      have hm : (st.sessions.map
            (fun s => if s.id = sid then { s with isOpen := false } else s)).map LspSession.id
          = st.sessions.map LspSession.id := by
        rw [List.map_map]
        apply List.map_congr_left
        intro a _
        by_cases h0 : a.id = sid <;> simp [h0]
      constructor
      · intro sess hs
        simp only [lifecycleStep] at hs ⊢
        rcases List.mem_map.mp hs with ⟨s0, hs0, rfl⟩
        by_cases h0 : s0.id = sid
        · simp only [h0, if_pos rfl]
          exact h0 ▸ h1 s0 hs0
        · rw [if_neg h0]
          exact h1 s0 hs0
      · simp only [lifecycleStep]
        rw [hm]
        exact h2
  | deliver sid l =>
      obtain ⟨hsess, hnext⟩ := lifecycleStep_deliver_frame st sid l
      exact lifecycleInv_of_eq st _ hsess hnext ⟨h1, h2⟩

/-- Running the lifecycle preserves the session invariant. -/
theorem lifecycleRunFrom_inv (evs : List LifecycleEvent) (st : LifecycleState)
    (h : lifecycleInv st) : lifecycleInv (lifecycleRunFrom st evs) := by
  induction evs generalizing st with
  | nil => exact h
  | cons e evs ih =>
      simp only [lifecycleRunFrom, List.foldl_cons]
      exact ih _ (lifecycleStep_inv st e h)

/-- Once a session is closed it stays closed: connects allocate fresh ids
and nothing reopens an existing session. -/
theorem sessionClosed_step (s : Nat) (st : LifecycleState) (e : LifecycleEvent)
    (h : sessionClosed s st) : sessionClosed s (lifecycleStep st e) := by
  obtain ⟨h1, h2⟩ := h
  cases e with
  | connect =>
      refine ⟨Nat.lt_succ_of_lt h1, ?_⟩
      intro sess hs hid
      simp only [lifecycleStep] at hs
      rcases List.mem_append.mp hs with hs | hs
      · exact h2 sess hs hid
      · simp at hs
        subst hs
        simp at hid
        exact absurd hid.symm (Nat.ne_of_lt h1)
  | close sid =>
      refine ⟨h1, ?_⟩
      intro sess hs hid
      simp only [lifecycleStep] at hs
      rcases List.mem_map.mp hs with ⟨s0, hs0, rfl⟩
      by_cases h0 : s0.id = sid
      · simp [h0]
      · rw [if_neg h0] at hid ⊢
        exact h2 s0 hs0 hid
  | deliver sid l =>
      obtain ⟨hsess, hnext⟩ := lifecycleStep_deliver_frame st sid l
      exact sessionClosed_of_eq s st _ hsess hnext ⟨h1, h2⟩

/-- A closed session stays closed over any further run. -/
theorem sessionClosed_runFrom (evs : List LifecycleEvent) (st : LifecycleState) (s : Nat)
    (h : sessionClosed s st) : sessionClosed s (lifecycleRunFrom st evs) := by
  induction evs generalizing st with
  | nil => exact h
  | cons e evs ih =>
      simp only [lifecycleRunFrom, List.foldl_cons]
      exact ih _ (sessionClosed_step s st e h)

/-- Immediately after its close callback, an allocated session is closed. -/
theorem sessionClosed_close (st : LifecycleState) (s : Nat) (h : s < st.nextId) :
    sessionClosed s (lifecycleStep st (LifecycleEvent.close s)) := by
  refine ⟨h, ?_⟩
  intro sess hs hid
  simp only [lifecycleStep] at hs
  rcases List.mem_map.mp hs with ⟨s0, hs0, rfl⟩
  by_cases h0 : s0.id = s
  · simp [h0]
  · rw [if_neg h0] at hid
    exact absurd hid h0

/-- Delivering a notification on a closed session changes nothing: no
listener registered under it fires. -/
theorem lifecycleStep_deliver_closed (st : LifecycleState) (s : Nat) (l : ListenerKind)
    (h : sessionClosed s st) : lifecycleStep st (LifecycleEvent.deliver s l) = st := by
  cases hf : st.sessions.find? (fun sess => sess.id == s) with
  | none => simp [lifecycleStep, hf]
  | some sess =>
      have hmem : sess ∈ st.sessions := List.mem_of_find?_eq_some hf
      have hid : sess.id = s := by simpa using List.find?_some hf
      have hop : sess.isOpen = false := h.2 sess hmem hid
      simp [lifecycleStep, hf, hop]

/-- C9: across reconnects every connection produces an independent session
(session identities are pairwise distinct), and once a session's close
callback has run, a delivery addressed to that session fires none of the
listeners registered under it — the whole lifecycle state is unchanged. -/
theorem C9_reconnect_sessions_independent (pre mid : List LifecycleEvent) (s : Nat)
    (l : ListenerKind)
    (h : ∃ sess ∈ (lifecycleRun pre).sessions, sess.id = s) :
    ((lifecycleRun (pre ++ LifecycleEvent.close s :: mid)).sessions.map LspSession.id).Nodup
    ∧ lifecycleRun ((pre ++ LifecycleEvent.close s :: mid) ++ [LifecycleEvent.deliver s l])
        = lifecycleRun (pre ++ LifecycleEvent.close s :: mid) := by
  obtain ⟨sess, hmem, hid⟩ := h
  have hinv0 : lifecycleInv (LifecycleState.mk [] 0 []) := by
    constructor <;> simp
  have hinvPre : lifecycleInv (lifecycleRun pre) := lifecycleRunFrom_inv pre _ hinv0
  have hs : s < (lifecycleRun pre).nextId := hid ▸ hinvPre.1 sess hmem
  have hrun : lifecycleRun (pre ++ LifecycleEvent.close s :: mid)
      = lifecycleRunFrom (lifecycleStep (lifecycleRun pre) (LifecycleEvent.close s)) mid := by
    simp [lifecycleRun, lifecycleRunFrom, List.foldl_append]
  have hclosed : sessionClosed s (lifecycleRun (pre ++ LifecycleEvent.close s :: mid)) := by
    rw [hrun]
    exact sessionClosed_runFrom mid _ s (sessionClosed_close _ s hs)
  constructor
  · exact (lifecycleRunFrom_inv _ _ hinv0).2
  · have hsplit : lifecycleRun ((pre ++ LifecycleEvent.close s :: mid)
        ++ [LifecycleEvent.deliver s l])
        = lifecycleStep (lifecycleRun (pre ++ LifecycleEvent.close s :: mid))
            (LifecycleEvent.deliver s l) := by
      simp [lifecycleRun, lifecycleRunFrom, List.foldl_append]
    rw [hsplit, lifecycleStep_deliver_closed _ s l hclosed]

theorem C9_reconnect_sessions_independent_witness :
    ((lifecycleRun ([LifecycleEvent.connect]
        ++ LifecycleEvent.close 0 :: [LifecycleEvent.connect])).sessions.map LspSession.id).Nodup
    ∧ lifecycleRun (([LifecycleEvent.connect] ++ LifecycleEvent.close 0 :: [LifecycleEvent.connect])
          ++ [LifecycleEvent.deliver 0 ListenerKind.semanticHighlighting])
        = lifecycleRun ([LifecycleEvent.connect]
            ++ LifecycleEvent.close 0 :: [LifecycleEvent.connect]) :=
  C9_reconnect_sessions_independent [LifecycleEvent.connect] [LifecycleEvent.connect] 0
    ListenerKind.semanticHighlighting (by decide)
